import Mathlib

/-!
Shallow embedding of `sort_includes.py`, a tool that rewrites the `#include`
block of C source files: it extracts the include directives that lie outside
`#if`/`#endif` blocks, partitions them into angle-bracket (library) and quoted
(local) directives, sorts and deduplicates each partition, promotes a `.c`
file's associated header, and streams the file back replacing the original
include lines with the sorted block.

Python strings are modelled as Lean `String` (a wrapper around `List Char`);
all primitive operations (`rstrip`, `startswith`, `endswith`, `in`,
lexicographic comparison) are re-implemented structurally over the character
list so that every definition is executable and kernel-reducible.
-/

namespace SortIncludes

/-- The whitespace characters stripped by Python's `str.strip`/`str.rstrip`
(ASCII subset: space, tab, newline, carriage return, vertical tab, form feed). -/
def isPyWs (c : Char) : Bool :=
  c = ' ' || c = '\t' || c = '\n' || c = '\r' || c = '\x0b' || c = '\x0c'

/-- `listPrefixB p l` is Python's `l.startswith(p)` at the character-list level. -/
def listPrefixB : List Char → List Char → Bool
  | [], _ => true
  | _ :: _, [] => false
  | a :: as, b :: bs => a = b && listPrefixB as bs

/-- `listInfixB n h` decides whether `n` occurs contiguously inside `h`
(Python's `n in h` for strings). -/
def listInfixB (n : List Char) : List Char → Bool
  | [] => n.isEmpty
  | c :: t => listPrefixB n (c :: t) || listInfixB n t

/-- Python's `s.startswith(p)`. -/
def str_startsWith (s p : String) : Bool := listPrefixB p.data s.data

/-- Python's `s.endswith(p)`. -/
def str_endsWith (s p : String) : Bool := listPrefixB p.data.reverse s.data.reverse

/-- Python's `p in s` (substring containment). -/
def containsStr (s p : String) : Bool := listInfixB p.data s.data

/-- `rstrip` on a character list: remove trailing whitespace. -/
def rstripL (l : List Char) : List Char := (l.reverse.dropWhile isPyWs).reverse

/-- Python's `s.rstrip()`. -/
def pyRstrip (s : String) : String := ⟨rstripL s.data⟩

/-- Python's `not s.strip()`: the line consists of whitespace only. -/
def isBlank (s : String) : Bool := s.data.all isPyWs

/-- Lexicographic comparison of character lists by code point, the order
Python uses to compare strings (`<=`). -/
def lexLe : List Char → List Char → Bool
  | [], _ => true
  | _ :: _, [] => false
  | a :: as, b :: bs =>
    if a < b then true
    else if b < a then false
    else lexLe as bs

/-- Python's `s <= t` on strings (code-point lexicographic order). -/
def sLe (s t : String) : Prop := lexLe s.data t.data = true

instance : DecidableRel sLe := fun _ _ => inferInstanceAs (Decidable (_ = true))

theorem lexLe_refl (l : List Char) : lexLe l l = true := by
  induction l with
  | nil => rfl
  | cons a as ih => simp [lexLe, lt_irrefl, ih]

theorem lexLe_total (l₁ l₂ : List Char) : lexLe l₁ l₂ = true ∨ lexLe l₂ l₁ = true := by
  induction l₁ generalizing l₂ with
  | nil => left; rfl
  | cons a as ih =>
    cases l₂ with
    | nil => right; rfl
    | cons b bs =>
      rcases lt_trichotomy a b with h | h | h
      · left; simp [lexLe, h]
      · subst h
        rcases ih bs with h' | h'
        · left; simp [lexLe, lt_irrefl, h']
        · right; simp [lexLe, lt_irrefl, h']
      · right; simp [lexLe, h]

theorem lexLe_trans {l₁ l₂ l₃ : List Char} (h₁ : lexLe l₁ l₂ = true)
    (h₂ : lexLe l₂ l₃ = true) : lexLe l₁ l₃ = true := by
  induction l₁ generalizing l₂ l₃ with
  | nil => rfl
  | cons a as ih =>
    cases l₂ with
    | nil => simp [lexLe] at h₁
    | cons b bs =>
      cases l₃ with
      | nil => simp [lexLe] at h₂
      | cons c cs =>
        simp only [lexLe] at h₁ h₂ ⊢
        rcases lt_trichotomy a b with hab | hab | hab
        · rcases lt_trichotomy b c with hbc | hbc | hbc
          · simp [lt_trans hab hbc]
          · subst hbc; simp [hab]
          · rcases lt_trichotomy a c with hac | hac | hac
            · simp [hac]
            · subst hac; simp [hbc, asymm hbc] at h₂
            · simp [hbc, asymm hbc] at h₂
        · subst hab
          rcases lt_trichotomy a c with hac | hac | hac
          · simp [hac]
          · subst hac
            simp [lt_irrefl] at h₁ h₂ ⊢
            exact ih h₁ h₂
          · simp [hac, asymm hac] at h₂
        · simp [hab, asymm hab] at h₁

theorem lexLe_antisymm {l₁ l₂ : List Char} (h₁ : lexLe l₁ l₂ = true)
    (h₂ : lexLe l₂ l₁ = true) : l₁ = l₂ := by
  induction l₁ generalizing l₂ with
  | nil =>
    cases l₂ with
    | nil => rfl
    | cons b bs => simp [lexLe] at h₂
  | cons a as ih =>
    cases l₂ with
    | nil => simp [lexLe] at h₁
    | cons b bs =>
      simp only [lexLe] at h₁ h₂
      rcases lt_trichotomy a b with hab | hab | hab
      · simp [hab, asymm hab] at h₂
      · subst hab
        simp [lt_irrefl] at h₁ h₂
        exact congrArg (a :: ·) (ih h₁ h₂)
      · simp [hab, asymm hab] at h₁

instance : IsTotal String sLe := ⟨fun s t => lexLe_total s.data t.data⟩

instance : IsTrans String sLe := ⟨fun _ _ _ h₁ h₂ => lexLe_trans h₁ h₂⟩

instance : IsRefl String sLe := ⟨fun s => lexLe_refl s.data⟩

theorem string_data_eq : ∀ {s t : String}, s.data = t.data → s = t
  | ⟨_⟩, ⟨_⟩, rfl => rfl

instance : IsAntisymm String sLe :=
  ⟨fun _ _ h₁ h₂ => string_data_eq (lexLe_antisymm h₁ h₂)⟩

/-- Python's `sorted` on a list of strings: a sorted permutation; since equal
keys are identical strings, any stable sort produces this list. -/
def pySorted (l : List String) : List String := List.insertionSort sLe l

/-- `dict.fromkeys`-based deduplication: keep the first occurrence of each
element, in order. `seen` accumulates the elements already emitted. -/
def pyDedupAux (seen : List String) : List String → List String
  | [] => []
  | x :: xs => if x ∈ seen then pyDedupAux seen xs else x :: pyDedupAux (x :: seen) xs

/-- Python's `list(dict.fromkeys(l))`. -/
def pyDedup (l : List String) : List String := pyDedupAux [] l

/-- Module constant `stdlib_includes`: the fixed allow-list of standard C
headers, spelled with their angle brackets. -/
def stdlib_includes : List String :=
  ["<assert.h>", "<complex.h>", "<ctype.h>", "<errno.h>", "<float.h>", "<inttypes.h>",
   "<limits.h>", "<locale.h>", "<math.h>", "<signal.h>", "<stdarg.h>", "<stdbool.h>",
   "<stddef.h>", "<stdint.h>", "<stdio.h>", "<stdlib.h>", "<string.h>", "<time.h>"]

/-- Module constant `excluded_dirs`. -/
def excluded_dirs : List String := [".git", ".vscode", "ASF", "config", "lib"]

/-- Module constant `excluded_files`. -/
def excluded_files : List String := ["asf.h", "git_version.h", "aes.c", "aes.h"]

/-- The loop body of `collect_include_lines`: walk the file's lines tracking
the depth-1 `#if` flag; an rstripped line starting with `#include` outside an
`#if` block is collected. -/
def collectAux : Bool → List String → List String
  | _, [] => []
  | inIf, l :: ls =>
    if str_startsWith (pyRstrip l) "#include" && !inIf then
      pyRstrip l :: collectAux inIf ls
    else if str_startsWith (pyRstrip l) "#if" then collectAux true ls
    else if str_startsWith (pyRstrip l) "#endif" && inIf then collectAux false ls
    else collectAux inIf ls

/-- `collect_include_lines`: all `#include` lines of the file that lie outside
`#if`/`#endif` blocks, rstripped. -/
def collect_include_lines (file_lines : List String) : List String :=
  collectAux false file_lines

/-- The standard-library test of `sort_lib_includes`:
`any([x in directive for x in stdlib_includes])`. -/
def isStdlibB (d : String) : Bool := stdlib_includes.any (fun x => containsStr d x)

/-- `sort_lib_includes`: sort the angle-bracket directives, split the sorted
list into standard-library and other directives, and join the two sublists
with an empty separator line when both are non-empty. -/
def sort_lib_includes (lib_includes : List String) : List String :=
  if !((pySorted lib_includes).filter isStdlibB).isEmpty
      && !((pySorted lib_includes).filter (fun d => !isStdlibB d)).isEmpty then
    (pySorted lib_includes).filter isStdlibB ++ [""]
      ++ (pySorted lib_includes).filter (fun d => !isStdlibB d)
  else
    (pySorted lib_includes).filter isStdlibB
      ++ (pySorted lib_includes).filter (fun d => !isStdlibB d)

/-- The `for directive in src_includes: if file_path.stem in directive`
search: the first directive whose full text contains the stem as a substring. -/
def pyFindMatch (stem : String) : List String → Option String
  | [] => none
  | d :: ds => if containsStr d stem then some d else pyFindMatch stem ds

/-- The normalized associated-header directive rebuilt from the file stem:
`#include "stem.h"`, whatever the matched directive's original spelling. -/
def normHeader (stem : String) : String := "#include \"" ++ stem ++ ".h\""

/-- `sort_src_includes`: for a `.c` file, pull out the first quoted directive
containing the stem, replace it by the normalized header placed first
(followed by an empty separator when other quoted directives remain); the
remaining (or all) quoted directives are sorted. -/
def sort_src_includes (suffix stem : String) (src_includes : List String) : List String :=
  if suffix = ".c" then
    match pyFindMatch stem src_includes with
    | some d =>
      if !(src_includes.erase d).isEmpty then
        normHeader stem :: "" :: pySorted (src_includes.erase d)
      else [normHeader stem]
    | none => pySorted src_includes
  else pySorted src_includes

/-- Concatenation of lines each followed by a newline, as produced by the
sequence of `out_buffer.write(include_line + '\n')` calls. -/
def concatLines : List String → String
  | [] => ""
  | l :: ls => l ++ "\n" ++ concatLines ls

/-- The text written in place of the first `#include` line (lines 126-133 of
the source): the library group followed by a blank line when non-empty, then
the local group followed by a blank line when non-empty. -/
def dumpIncludes (lib src : List String) : String :=
  concatLines lib ++ (if lib.isEmpty then "" else "\n")
    ++ concatLines src ++ (if src.isEmpty then "" else "\n")

/-- The mutable state of the rewriting loop in `sort_include_lines`. -/
structure RwState where
  buf : String
  in_if_block : Bool
  first_include_line : Bool
  first_line_after_include_block : Bool

/-- Initial rewriting state. -/
def initRwState : RwState := ⟨"", false, true, false⟩

/-- One iteration of the rewriting loop of `sort_include_lines` (lines
118-148 of the source), processing a single raw line (with its terminator). -/
def rwLine (lib src : List String) (st : RwState) (line : String) : RwState :=
  if str_startsWith line "#include" then
    if st.first_include_line then
      { st with buf := st.buf ++ dumpIncludes lib src,
                first_include_line := false,
                first_line_after_include_block := true }
    else if st.in_if_block then { st with buf := st.buf ++ line }
    else st
  else if !st.first_include_line && str_startsWith line "#if" then
    { st with buf := st.buf ++ line, in_if_block := true,
              first_line_after_include_block := false }
  else if !st.first_include_line && str_startsWith line "#end" then
    { st with buf := st.buf ++ line, in_if_block := false,
              first_line_after_include_block := false }
  else if st.first_line_after_include_block && isBlank line then st
  else { st with buf := st.buf ++ line, first_line_after_include_block := false }

/-- The trailing-newline fixup at lines 150-155 of the source: seek to the
last character of the buffer (a `ValueError`, modelled as `none`, when the
buffer is empty) and append a newline when that character is not one. -/
def finalizeBuf (s : String) : Option String :=
  if s.data.isEmpty then none
  else if s.data.getLast? = some '\n' then some s
  else some (s ++ "\n")

/-- The deduplicated library group of `sort_include_lines`: the directives
ending in `>` passed through `sort_lib_includes` and `dict.fromkeys`. -/
def libGroup (include_lines : List String) : List String :=
  pyDedup (sort_lib_includes (include_lines.filter (fun x => str_endsWith x ">")))

/-- The deduplicated local group of `sort_include_lines`: the directives
ending in `"` passed through `sort_src_includes` and `dict.fromkeys`. -/
def srcGroup (suffix stem : String) (include_lines : List String) : List String :=
  pyDedup (sort_src_includes suffix stem
    (include_lines.filter (fun x => str_endsWith x "\"")))

/-- `sort_include_lines`: partition the extracted directives by their trailing
character, sort and deduplicate the two groups, stream the file's lines
through the rewriting loop, and normalize the trailing newline. `none` models
the `ValueError` raised when the output buffer is empty. -/
def sort_include_lines (suffix stem : String) (include_lines : List String)
    (file_lines : List String) : Option String :=
  finalizeBuf
    (file_lines.foldl
      (rwLine (libGroup include_lines) (srcGroup suffix stem include_lines))
      initRwState).buf

/-- Python's `file.readlines()` on in-memory content: split after each
newline character, keeping the terminators; a last chunk without a terminator
is kept as-is, and empty content yields no lines. -/
def splitLinesAux : List Char → List Char → List (List Char)
  | [], acc => if acc.isEmpty then [] else [acc.reverse]
  | c :: cs, acc =>
    if c = '\n' then (acc.reverse ++ ['\n']) :: splitLinesAux cs []
    else splitLinesAux cs (c :: acc)

/-- `readlines` as a function of the whole file content. -/
def pyReadlines (s : String) : List String :=
  (splitLinesAux s.data []).map String.mk

/-- The per-file behaviour of `sort_includes` on a regular file: extract the
include lines and, when at least one was found, rewrite the file through
`sort_include_lines`; a file with no extracted directives is left untouched.
`suffix` and `stem` are the `Path.suffix`/`Path.stem` of the file. -/
def sortIncludesFile (suffix stem content : String) : Option String :=
  if (collect_include_lines (pyReadlines content)).isEmpty then some content
  else
    sort_include_lines suffix stem (collect_include_lines (pyReadlines content))
      (pyReadlines content)

/-- `file_excluded`: only `.c` and `.h` files are checked against
`excluded_files`; every other suffix is never excluded. -/
def file_excluded (suffix name : String) : Bool :=
  if suffix = ".c" || suffix = ".h" then excluded_files.contains name else false

/-- A directory tree entry: a regular file (with its full name and suffix) or
a directory with its children. -/
inductive FSEntry where
  | file (name suffix : String)
  | dir (name : String) (entries : List FSEntry)

mutual

/-- The body of `collect_source_files` for a single `iterdir` entry: a
non-excluded file is appended; a directory is recursed into unless its name is
in `excluded_dirs` (for directories reached by the traversal below a clean
root, `dir_excluded`'s check of every path component reduces to this test). -/
def collectEntry : FSEntry → List (String × String)
  | FSEntry.file n s => if file_excluded s n then [] else [(n, s)]
  | FSEntry.dir n es => if excluded_dirs.contains n then [] else collect_source_files es

/-- `collect_source_files`: depth-first traversal accumulating every
non-excluded regular file of the tree. -/
def collect_source_files : List FSEntry → List (String × String)
  | [] => []
  | e :: rest => collectEntry e ++ collect_source_files rest

end

/-! ### Helper lemmas about the string primitives -/

theorem data_append (s t : String) : (s ++ t).data = s.data ++ t.data := by
  cases s; cases t; rfl

theorem listPrefixB_iff {p l : List Char} :
    listPrefixB p l = true ↔ ∃ t, l = p ++ t := by
  induction p generalizing l with
  | nil => simp [listPrefixB]
  | cons a as ih =>
    cases l with
    | nil => simp [listPrefixB]
    | cons b bs =>
      simp only [listPrefixB, Bool.and_eq_true, decide_eq_true_eq, ih]
      constructor
      · rintro ⟨rfl, t, rfl⟩; exact ⟨t, rfl⟩
      · rintro ⟨t, ht⟩
        injection ht with h₁ h₂
        exact ⟨h₁.symm, t, h₂⟩

theorem listPrefixB_append (p t : List Char) : listPrefixB p (p ++ t) = true :=
  listPrefixB_iff.mpr ⟨t, rfl⟩

theorem listInfixB_of_listPrefixB {n l : List Char} (h : listPrefixB n l = true) :
    listInfixB n l = true := by
  cases l with
  | nil =>
    rcases listPrefixB_iff.mp h with ⟨t, ht⟩
    simp only [List.nil_eq, List.append_eq_nil] at ht
    simp [listInfixB, ht.1]
  | cons c cs => simp [listInfixB, h]

theorem listInfixB_append_left {n h : List Char} (p : List Char)
    (hh : listInfixB n h = true) : listInfixB n (p ++ h) = true := by
  induction p with
  | nil => simpa using hh
  | cons c cs ih =>
    cases h with
    | nil => simp_all [listInfixB]
    | cons d ds => simp [listInfixB, ih]

theorem containsStr_normHeader (stem : String) :
    containsStr (normHeader stem) stem = true := by
  have hd : (normHeader stem).data
      = ("#include \"".data) ++ (stem.data ++ (".h\"").data) := by
    simp [normHeader, data_append]
  unfold containsStr
  rw [hd]
  exact listInfixB_append_left _
    (listInfixB_of_listPrefixB (listPrefixB_append _ _))

/-- The rstripped line is an initial segment of the raw line. -/
theorem rstripL_initial (l : List Char) : ∃ t, l = rstripL l ++ t := by
  refine ⟨(l.reverse.takeWhile isPyWs).reverse, ?_⟩
  unfold rstripL
  conv_lhs =>
    rw [← List.reverse_reverse l,
      ← List.takeWhile_append_dropWhile (p := isPyWs) (l := l.reverse)]
  rw [List.reverse_append]

theorem dropWhile_append_full {p : Char → Bool} {a : List Char} (b : List Char)
    (ha : a.dropWhile p = []) : (a ++ b).dropWhile p = b.dropWhile p := by
  induction a with
  | nil => simp
  | cons c cs ih =>
    by_cases hc : p c
    · simp only [List.dropWhile_cons, hc, if_true] at ha ⊢
      simp only [List.cons_append, List.dropWhile_cons, hc, if_true]
      exact ih ha
    · simp [List.dropWhile_cons, hc] at ha

theorem dropWhile_append_stop {p : Char → Bool} {a : List Char} (b : List Char)
    (ha : a.dropWhile p ≠ []) : (a ++ b).dropWhile p = a.dropWhile p ++ b := by
  induction a with
  | nil => simp at ha
  | cons c cs ih =>
    by_cases hc : p c
    · simp only [List.dropWhile_cons, hc, if_true] at ha ⊢
      simp only [List.cons_append, List.dropWhile_cons, hc, if_true]
      exact ih ha
    · simp [List.dropWhile_cons, hc]

/-- Stripping trailing whitespace from `p ++ r` leaves the head `p` intact
when `p` ends in a non-whitespace character. -/
theorem rstripL_append_of_last {p : List Char} (r : List Char) (c : Char)
    (hc : isPyWs c = false) (hp : p.reverse.head? = some c) :
    rstripL (p ++ r) = p ++ rstripL r := by
  obtain ⟨rev, hrev⟩ : ∃ rev, p.reverse = c :: rev := by
    cases hpr : p.reverse with
    | nil => rw [hpr] at hp; simp at hp
    | cons d ds =>
      rw [hpr] at hp
      simp only [List.head?_cons, Option.some.injEq] at hp
      exact ⟨ds, by rw [hp]⟩
  have hpv : p = (c :: rev).reverse := by rw [← hrev, List.reverse_reverse]
  unfold rstripL
  rw [List.reverse_append]
  by_cases hr : List.dropWhile isPyWs r.reverse = []
  · rw [dropWhile_append_full _ hr, hrev, List.dropWhile_cons, hc, hr]
    simp only [Bool.false_eq_true, if_false, List.reverse_nil, List.append_nil]
    exact hpv.symm
  · rw [dropWhile_append_stop _ hr, List.reverse_append, List.reverse_reverse]

theorem str_startsWith_pyRstrip (l : String) :
    str_startsWith (pyRstrip l) "#include" = str_startsWith l "#include" := by
  unfold str_startsWith pyRstrip
  simp only
  by_cases h : listPrefixB ("#include").data l.data = true
  · rw [h]
    rcases listPrefixB_iff.mp h with ⟨t, ht⟩
    rw [ht, rstripL_append_of_last t 'e' (by decide) (by decide)]
    exact listPrefixB_append _ _
  · simp only [Bool.not_eq_true] at h
    rw [h]
    by_contra hb
    simp only [Bool.not_eq_false] at hb
    rcases listPrefixB_iff.mp hb with ⟨t, ht⟩
    rcases rstripL_initial l.data with ⟨w, hw⟩
    rw [ht] at hw
    have : listPrefixB ("#include").data l.data = true := by
      rw [hw, List.append_assoc]; exact listPrefixB_append _ _
    rw [this] at h; exact Bool.true_eq_false.mp h

/-- A line cannot end with both `>` and `"`: its last character decides. -/
theorem endsWith_gt_ne_quote {x : String} (h : str_endsWith x ">" = true) :
    str_endsWith x "\"" = false := by
  unfold str_endsWith at h ⊢
  have hgt : (">".data.reverse) = ['>'] := rfl
  have hq : ("\"".data.reverse) = ['"'] := rfl
  rw [hgt] at h
  rw [hq]
  cases hr : x.data.reverse with
  | nil => rw [hr] at h; simp [listPrefixB] at h
  | cons c cs =>
    rw [hr] at h
    simp only [listPrefixB, Bool.and_eq_true, decide_eq_true_eq] at h
    simp only [listPrefixB, Bool.and_eq_false_iff, decide_eq_false_iff_not]
    left
    rw [← h.1]
    decide

/-! ### Helper lemmas about `pyDedup` -/

theorem mem_pyDedupAux {x : String} {seen l : List String} :
    x ∈ pyDedupAux seen l ↔ x ∈ l ∧ x ∉ seen := by
  induction l generalizing seen with
  | nil => simp [pyDedupAux]
  | cons a as ih =>
    by_cases ha : a ∈ seen
    · simp only [pyDedupAux, if_pos ha, ih, List.mem_cons]
      constructor
      · rintro ⟨h₁, h₂⟩; exact ⟨Or.inr h₁, h₂⟩
      · rintro ⟨h₁ | h₁, h₂⟩
        · exact absurd (h₁ ▸ ha) h₂
        · exact ⟨h₁, h₂⟩
    · simp only [pyDedupAux, if_neg ha, List.mem_cons, ih, List.mem_cons]
      constructor
      · rintro (rfl | ⟨h₁, h₂⟩)
        · exact ⟨Or.inl rfl, ha⟩
        · exact ⟨Or.inr h₁, fun hx => h₂ (Or.inr hx)⟩
      · rintro ⟨rfl | h₁, h₂⟩
        · exact Or.inl rfl
        · by_cases hax : x = a
          · exact Or.inl hax
          · exact Or.inr ⟨h₁, by simp [hax, h₂]⟩

theorem mem_pyDedup {x : String} {l : List String} : x ∈ pyDedup l ↔ x ∈ l := by
  unfold pyDedup; rw [mem_pyDedupAux]; simp

theorem pyDedupAux_sublist (seen l : List String) : (pyDedupAux seen l).Sublist l := by
  induction l generalizing seen with
  | nil => simp [pyDedupAux]
  | cons a as ih =>
    by_cases ha : a ∈ seen
    · simp only [pyDedupAux, if_pos ha]
      exact (ih seen).trans (List.sublist_cons_self a as)
    · simp only [pyDedupAux, if_neg ha]
      exact (ih (a :: seen)).cons₂ a

theorem nodup_pyDedupAux (seen l : List String) : (pyDedupAux seen l).Nodup := by
  induction l generalizing seen with
  | nil => simp [pyDedupAux]
  | cons a as ih =>
    by_cases ha : a ∈ seen
    · simpa only [pyDedupAux, if_pos ha] using ih seen
    · simp only [pyDedupAux, if_neg ha, List.nodup_cons]
      refine ⟨fun hmem => ?_, ih (a :: seen)⟩
      exact (mem_pyDedupAux.mp hmem).2 (List.mem_cons_self a seen)

theorem pyDedupAux_eq_self {seen l : List String} (hn : l.Nodup)
    (hs : ∀ x ∈ l, x ∉ seen) : pyDedupAux seen l = l := by
  induction l generalizing seen with
  | nil => rfl
  | cons a as ih =>
    rw [List.nodup_cons] at hn
    have ha : a ∉ seen := hs a (List.mem_cons_self a as)
    rw [pyDedupAux, if_neg ha]
    refine congrArg (a :: ·) (ih hn.2 fun x hx => ?_)
    intro hmem
    rcases List.mem_cons.mp hmem with rfl | hmem'
    · exact hn.1 hx
    · exact hs x (List.mem_cons_of_mem _ hx) hmem'

theorem pyDedup_eq_self {l : List String} (hn : l.Nodup) : pyDedup l = l :=
  pyDedupAux_eq_self hn (by simp)

theorem pyDedupAux_congr {s₁ s₂ l : List String}
    (h : ∀ x ∈ l, (x ∈ s₁ ↔ x ∈ s₂)) : pyDedupAux s₁ l = pyDedupAux s₂ l := by
  induction l generalizing s₁ s₂ with
  | nil => rfl
  | cons a as ih =>
    have ha := h a (List.mem_cons_self a as)
    by_cases h₁ : a ∈ s₁
    · rw [pyDedupAux, if_pos h₁, pyDedupAux, if_pos (ha.mp h₁)]
      exact ih fun x hx => h x (List.mem_cons_of_mem _ hx)
    · rw [pyDedupAux, if_neg h₁, pyDedupAux, if_neg (fun h₂ => h₁ (ha.mpr h₂))]
      refine congrArg (a :: ·) (ih fun x hx => ?_)
      simp only [List.mem_cons]
      rw [h x (List.mem_cons_of_mem _ hx)]

theorem pyDedupAux_append (seen xs ys : List String) :
    pyDedupAux seen (xs ++ ys) = pyDedupAux seen xs ++ pyDedupAux (xs ++ seen) ys := by
  induction xs generalizing seen with
  | nil => rfl
  | cons a as ih =>
    by_cases ha : a ∈ seen
    · simp only [List.cons_append, pyDedupAux, if_pos ha, List.append_eq]
      rw [ih seen]
      refine congrArg _ (pyDedupAux_congr fun x _ => ?_)
      simp only [List.mem_append, List.mem_cons]
      constructor
      · exact fun h => Or.inr h
      · rintro (rfl | h)
        · exact Or.inr ha
        · exact h
    · simp only [List.cons_append, pyDedupAux, if_neg ha, List.append_eq]
      rw [ih (a :: seen)]
      refine congrArg _ (congrArg _ (pyDedupAux_congr fun x _ => ?_))
      simp only [List.mem_append, List.mem_cons]
      tauto

theorem sorted_pyDedupAux {seen l : List String} (h : List.Sorted sLe l) :
    List.Sorted sLe (pyDedupAux seen l) :=
  List.Pairwise.sublist (pyDedupAux_sublist seen l) h

/-! ### Helper lemmas about `pySorted` -/

theorem sorted_pySorted (l : List String) : List.Sorted sLe (pySorted l) :=
  List.sorted_insertionSort sLe l

theorem perm_pySorted (l : List String) : (pySorted l).Perm l :=
  List.perm_insertionSort sLe l

theorem mem_pySorted {x : String} {l : List String} : x ∈ pySorted l ↔ x ∈ l :=
  (perm_pySorted l).mem_iff

theorem pySorted_eq_self {l : List String} (h : List.Sorted sLe l) : pySorted l = l :=
  List.Sorted.insertionSort_eq h

/-! ### Helper lemmas about `pyFindMatch`, `normHeader` and the group functions -/

theorem pyFindMatch_mem {stem d : String} {l : List String}
    (h : pyFindMatch stem l = some d) : d ∈ l := by
  induction l with
  | nil => simp [pyFindMatch] at h
  | cons a as ih =>
    rw [pyFindMatch] at h
    split at h
    · exact (Option.some.injEq _ _ ▸ h) ▸ List.mem_cons_self a as
    · exact List.mem_cons_of_mem a (ih h)

theorem pyFindMatch_none {stem : String} {l : List String} :
    pyFindMatch stem l = none ↔ ∀ x ∈ l, containsStr x stem = false := by
  induction l with
  | nil => simp [pyFindMatch]
  | cons a as ih =>
    rw [pyFindMatch]
    by_cases ha : containsStr a stem = true
    · simp [ha]
    · simp only [Bool.not_eq_true] at ha
      simp [ha, ih]

theorem pyFindMatch_append {stem d : String} {pre post : List String}
    (hpre : ∀ x ∈ pre, containsStr x stem = false)
    (hd : containsStr d stem = true) :
    pyFindMatch stem (pre ++ d :: post) = some d := by
  induction pre with
  | nil => simp [pyFindMatch, hd]
  | cons a as ih =>
    rw [List.cons_append, pyFindMatch,
      if_neg (by simp [hpre a (List.mem_cons_self a as)])]
    exact ih fun x hx => hpre x (List.mem_cons_of_mem a hx)

theorem normHeader_data (stem : String) :
    (normHeader stem).data = "#include \"".data ++ stem.data ++ ".h\"".data := by
  simp [normHeader, data_append]

theorem normHeader_startsWith (stem : String) :
    str_startsWith (normHeader stem) "#include" = true := by
  unfold str_startsWith
  rw [normHeader_data]
  have : "#include \"".data = "#include".data ++ [' ', '"'] := by decide
  rw [this, List.append_assoc, List.append_assoc]
  exact listPrefixB_append _ _

theorem normHeader_endsWith_quote (stem : String) :
    str_endsWith (normHeader stem) "\"" = true := by
  unfold str_endsWith
  rw [normHeader_data]
  rw [List.reverse_append, List.reverse_append]
  have : (".h\"".data).reverse = '"' :: ['h', '.'] := by decide
  rw [this]
  show listPrefixB ['"'] _ = true
  simp [listPrefixB]

theorem normHeader_ne_empty (stem : String) : normHeader stem ≠ "" := by
  intro h
  have := congrArg String.data h
  rw [normHeader_data] at this
  simp at this

theorem empty_not_endsWith_gt : str_endsWith "" ">" = false := rfl

theorem empty_not_endsWith_quote : str_endsWith "" "\"" = false := rfl

theorem empty_not_startsWith_include : str_startsWith "" "#include" = false := rfl

/-- Any element of `sort_lib_includes l` is an element of `l` or the empty
separator line. -/
theorem mem_sort_lib_cases {x : String} {l : List String}
    (h : x ∈ sort_lib_includes l) : x ∈ l ∨ x = "" := by
  unfold sort_lib_includes at h
  split at h
  · simp only [List.append_assoc, List.mem_append, List.mem_singleton] at h
    rcases h with h | h | h
    · exact Or.inl (mem_pySorted.mp (List.mem_filter.mp h).1)
    · exact Or.inr h
    · exact Or.inl (mem_pySorted.mp (List.mem_filter.mp h).1)
  · simp only [List.mem_append] at h
    rcases h with h | h
    · exact Or.inl (mem_pySorted.mp (List.mem_filter.mp h).1)
    · exact Or.inl (mem_pySorted.mp (List.mem_filter.mp h).1)

/-- Membership in the library group is membership in the input, apart from
the separator. -/
theorem mem_sort_lib_iff {x : String} {l : List String} (hx : x ≠ "") :
    x ∈ sort_lib_includes l ↔ x ∈ l := by
  constructor
  · intro h
    rcases mem_sort_lib_cases h with h | h
    · exact h
    · exact absurd h hx
  · intro h
    unfold sort_lib_includes
    have hmem : x ∈ pySorted l := mem_pySorted.mpr h
    by_cases hs : isStdlibB x = true
    · have : x ∈ (pySorted l).filter isStdlibB := List.mem_filter.mpr ⟨hmem, hs⟩
      split <;> simp [this]
    · simp only [Bool.not_eq_true] at hs
      have : x ∈ (pySorted l).filter (fun d => !isStdlibB d) :=
        List.mem_filter.mpr ⟨hmem, by simp [hs]⟩
      split <;> simp [this]

/-- Any element of `sort_src_includes suffix stem l` is an element of `l`,
the separator, or the normalized associated header. -/
theorem mem_sort_src_cases {suffix stem x : String} {l : List String}
    (h : x ∈ sort_src_includes suffix stem l) :
    x ∈ l ∨ x = "" ∨ x = normHeader stem := by
  unfold sort_src_includes at h
  split at h
  · split at h
    · split at h
      · simp only [List.mem_cons] at h
        rcases h with h | h | h
        · exact Or.inr (Or.inr h)
        · exact Or.inr (Or.inl h)
        · exact Or.inl ((List.erase_sublist _ _).subset (mem_pySorted.mp h))
      · simp only [List.mem_singleton] at h
        exact Or.inr (Or.inr h)
    · exact Or.inl (mem_pySorted.mp h)
  · exact Or.inl (mem_pySorted.mp h)

theorem erase_eq_nil {l : List String} {a : String} (h : l.erase a = []) :
    l = [] ∨ l = [a] := by
  cases l with
  | nil => exact Or.inl rfl
  | cons b bs =>
    rw [List.erase_cons] at h
    by_cases hba : b = a
    · subst hba
      simp only [beq_self_eq_true, if_true] at h
      exact Or.inr (by rw [h])
    · simp only [beq_eq_false_iff_ne.mpr hba, Bool.false_eq_true, if_false] at h
      cases h

/-- Membership in the local group is membership in the input, apart from the
separator, provided a matched associated header was already normalized. -/
theorem mem_sort_src_iff {suffix stem x : String} {l : List String} (hx : x ≠ "")
    (hnorm : suffix = ".c" → ∀ d, pyFindMatch stem l = some d → d = normHeader stem) :
    x ∈ sort_src_includes suffix stem l ↔ x ∈ l := by
  unfold sort_src_includes
  by_cases hsuf : suffix = ".c"
  · rw [if_pos hsuf]
    cases hfind : pyFindMatch stem l with
    | none => exact mem_pySorted
    | some d =>
      dsimp only
      have hd : d = normHeader stem := hnorm hsuf d hfind
      have hdl : d ∈ l := pyFindMatch_mem hfind
      by_cases hrest : l.erase d = []
      · rw [hrest]
        simp only [List.isEmpty_nil, Bool.not_true, Bool.false_eq_true, if_false,
          List.mem_singleton]
        have hl : l = [d] := by
          rcases erase_eq_nil hrest with h | h
          · rw [h] at hdl; cases hdl
          · exact h
        rw [hl, hd, List.mem_singleton]
      · rw [if_pos (by simpa using hrest)]
        simp only [List.mem_cons, mem_pySorted]
        constructor
        · rintro (rfl | rfl | h)
          · exact hd ▸ hdl
          · exact absurd rfl hx
          · exact (List.erase_sublist _ _).subset h
        · intro h
          by_cases hxd : x = d
          · exact Or.inl (hxd.trans hd)
          · exact Or.inr (Or.inr ((List.mem_erase_of_ne hxd).mpr h))
  · rw [if_neg hsuf]
    exact mem_pySorted

theorem isStdlibB_empty : isStdlibB "" = false := by decide

theorem sLe_empty_left (t : String) : sLe "" t := rfl

/-- The library group (before deduplication) is pairwise ordered: standard
headers precede other headers, and inside a class the order is lexicographic;
the pairs involving the separator line hold trivially. -/
theorem pairwise_sort_lib (l : List String) :
    List.Pairwise (fun a b => (isStdlibB b = true → isStdlibB a = true) ∧
      (isStdlibB a = isStdlibB b → sLe a b)) (sort_lib_includes l) := by
  have hsorted : List.Sorted sLe (pySorted l) := sorted_pySorted l
  have hA : List.Pairwise (fun a b => (isStdlibB b = true → isStdlibB a = true) ∧
      (isStdlibB a = isStdlibB b → sLe a b)) ((pySorted l).filter isStdlibB) := by
    refine List.Pairwise.imp_of_mem ?_ (List.Pairwise.filter _ hsorted)
    intro a b ha _ hle
    exact ⟨fun _ => (List.mem_filter.mp ha).2, fun _ => hle⟩
  have hB : List.Pairwise (fun a b => (isStdlibB b = true → isStdlibB a = true) ∧
      (isStdlibB a = isStdlibB b → sLe a b))
      ((pySorted l).filter (fun d => !isStdlibB d)) := by
    refine List.Pairwise.imp_of_mem ?_ (List.Pairwise.filter _ hsorted)
    intro a b _ hb hle
    refine ⟨fun hbs => ?_, fun _ => hle⟩
    have := (List.mem_filter.mp hb).2
    rw [hbs] at this
    cases this
  have hAB : ∀ a ∈ (pySorted l).filter isStdlibB,
      ∀ b ∈ (pySorted l).filter (fun d => !isStdlibB d),
      (isStdlibB b = true → isStdlibB a = true) ∧
        (isStdlibB a = isStdlibB b → sLe a b) := by
    intro a ha b hb
    have ha' := (List.mem_filter.mp ha).2
    have hb' := (List.mem_filter.mp hb).2
    refine ⟨fun hbs => ?_, fun heq => ?_⟩
    · rw [hbs] at hb'; cases hb'
    · rw [ha'] at heq
      rw [← heq] at hb'
      cases hb'
  unfold sort_lib_includes
  split
  · rw [List.pairwise_append, List.pairwise_append]
    refine ⟨⟨hA, List.pairwise_singleton _ _, fun a ha b hb => ?_⟩, hB,
      fun a ha b hb => ?_⟩
    · rw [List.mem_singleton] at hb
      subst hb
      have ha' := (List.mem_filter.mp ha).2
      exact ⟨fun h => absurd h (by simp [isStdlibB_empty]),
        fun heq => absurd (ha' ▸ heq) (by simp [isStdlibB_empty])⟩
    · rw [List.mem_append, List.mem_singleton] at ha
      rcases ha with ha | rfl
      · exact hAB a ha b hb
      · refine ⟨fun hbs => ?_, fun _ => sLe_empty_left b⟩
        have := (List.mem_filter.mp hb).2
        rw [hbs] at this
        cases this
  · rw [List.pairwise_append]
    exact ⟨hA, hB, hAB⟩

/-! ### Claim theorems -/

/-- C4 counterexample: for `foo.c`, the quoted directive
`#include "foobar.h"` has library name `foobar.h`, which is not a
case-sensitive exact match of the stem `foo`; the claim therefore says it is
not selected as the associated header. The code selects it anyway (substring
match) and rewrites the local group to the normalized `#include "foo.h"`,
dropping the original directive. -/
theorem C4_counterexample :
    sort_src_includes ".c" "foo" ["#include \"foobar.h\""] = ["#include \"foo.h\""] := by
  decide

/-- C4 (amended): a quote-kind directive is selected as the associated header
if and only if the file stem occurs as a substring of the directive's full
raw text (not an exact match of its library name); the first such directive
in original order is removed and replaced by the normalized
`#include "stem.h"`, which is emitted first, followed by an empty separator
exactly when other quoted directives remain, then the others sorted. -/
theorem C4_associated_header_amended (stem d : String) (pre post : List String)
    (hd : containsStr d stem = true)
    (hpre : ∀ x ∈ pre, containsStr x stem = false) :
    sort_src_includes ".c" stem (pre ++ d :: post)
      = if pre ++ post = [] then [normHeader stem]
        else normHeader stem :: "" :: pySorted (pre ++ post) := by
  have hdpre : d ∉ pre := fun hmem => by
    have := hpre d hmem
    rw [this] at hd
    cases hd
  have herase : (pre ++ d :: post).erase d = pre ++ post := by
    rw [List.erase_append_right _ hdpre, List.erase_cons_head]
  unfold sort_src_includes
  rw [if_pos rfl, pyFindMatch_append hpre hd]
  dsimp only
  rw [herase]
  by_cases hpp : pre ++ post = []
  · rw [if_neg (by simp [hpp]), if_pos hpp]
  · rw [if_pos (by simpa using hpp), if_neg hpp]

/-- C4 witness: instantiation of the amended claim at a concrete `.c` file
with stem `foo`, a non-matching quoted directive and a matching one. -/
theorem C4_witness :
    sort_src_includes ".c" "foo" (["#include \"a.h\""] ++ "#include \"foo.h\"" :: [])
      = if ["#include \"a.h\""] ++ ([] : List String) = [] then [normHeader "foo"]
        else normHeader "foo" :: "" :: pySorted (["#include \"a.h\""] ++ []) :=
  C4_associated_header_amended "foo" "#include \"foo.h\"" ["#include \"a.h\""] []
    (by decide) (by decide)

/-- C5 (confirmed): in the rewritten library group, for any two entries in
order, if the later one is standard-library then so is the earlier one (all
standard-library directives precede all other-library directives), and two
entries of the same class appear in lexicographic order of their full raw
text; the pairs involving the empty separator line hold trivially. -/
theorem C5_ordering_law (include_lines : List String) :
    List.Pairwise (fun a b => (isStdlibB b = true → isStdlibB a = true) ∧
      (isStdlibB a = isStdlibB b → sLe a b)) (libGroup include_lines) :=
  List.Pairwise.sublist (pyDedupAux_sublist _ _) (pairwise_sort_lib _)

/-- C7 counterexample: a file consisting of a single malformed include line
(ending in neither `>` nor `"`) is processed — the line is extracted, both
groups come out empty, nothing is written to the buffer — and the
trailing-newline fixup then raises `ValueError` (modelled by `none`),
contradicting the claim that such files complete without raising. -/
theorem C7_counterexample : sortIncludesFile ".c" "a" "#include foo" = none := by
  decide

/-- C7 (amended): a line starting with the include token but ending in
neither `>` nor `"` is silently excluded from both rewritten groups; however,
processing is not crash-free: when the rewrite buffer ends up empty (e.g. a
file consisting solely of malformed include lines) the trailing-newline
fixup raises `ValueError`. -/
theorem C7_malformed_dropped_amended (suffix stem x : String)
    (include_lines : List String)
    (hstart : str_startsWith x "#include" = true)
    (hgt : str_endsWith x ">" = false) (hq : str_endsWith x "\"" = false) :
    x ∉ libGroup include_lines ∧ x ∉ srcGroup suffix stem include_lines := by
  have hxe : x ≠ "" := by
    rintro rfl
    rw [empty_not_startsWith_include] at hstart
    cases hstart
  constructor
  · intro hmem
    rcases mem_sort_lib_cases (mem_pyDedup.mp hmem) with h | h
    · have := (List.mem_filter.mp h).2
      rw [hgt] at this
      cases this
    · exact hxe h
  · intro hmem
    rcases mem_sort_src_cases (mem_pyDedup.mp hmem) with h | h | h
    · have := (List.mem_filter.mp h).2
      rw [hq] at this
      cases this
    · exact hxe h
    · rw [h, normHeader_endsWith_quote stem] at hq
      cases hq

/-- C7 witness: the malformed line `#include foo` is excluded from both
groups of a file whose extracted lines consist of it alone. -/
theorem C7_witness :
    "#include foo" ∉ libGroup ["#include foo"]
    ∧ "#include foo" ∉ srcGroup ".c" "a" ["#include foo"] :=
  C7_malformed_dropped_amended ".c" "a" "#include foo" ["#include foo"]
    (by decide) (by decide) (by decide)

theorem empty_append (r : String) : "" ++ r = r :=
  string_data_eq (by rw [data_append]; rfl)

theorem append_empty (r : String) : r ++ "" = r :=
  string_data_eq (by rw [data_append]; exact List.append_nil _)

theorem strAppend_assoc (a b c : String) : a ++ b ++ c = a ++ (b ++ c) :=
  string_data_eq (by simp only [data_append, List.append_assoc])

theorem concatLines_append (a b : List String) :
    concatLines (a ++ b) = concatLines a ++ concatLines b := by
  induction a with
  | nil => rw [List.nil_append, concatLines, empty_append]
  | cons x xs ih =>
    rw [List.cons_append, concatLines, concatLines, ih]
    simp only [strAppend_assoc]

theorem splitLinesAux_newline (xs rest acc : List Char)
    (hx : ∀ c ∈ xs, c ≠ '\n') :
    splitLinesAux (xs ++ '\n' :: rest) acc
      = (acc.reverse ++ xs ++ ['\n']) :: splitLinesAux rest [] := by
  induction xs generalizing acc with
  | nil => simp [splitLinesAux]
  | cons c cs ih =>
    have hc : c ≠ '\n' := hx c (List.mem_cons_self c cs)
    rw [List.cons_append, splitLinesAux, if_neg hc,
      ih (c :: acc) fun d hd => hx d (List.mem_cons_of_mem c hd)]
    simp

theorem pyReadlines_cons (x r : String) (hx : ∀ c ∈ x.data, c ≠ '\n') :
    pyReadlines (x ++ "\n" ++ r) = (x ++ "\n") :: pyReadlines r := by
  unfold pyReadlines
  rw [data_append, data_append]
  have hnl : ("\n").data = ['\n'] := rfl
  rw [hnl, List.append_assoc, List.singleton_append,
    splitLinesAux_newline x.data r.data [] hx]
  rw [List.map_cons]
  refine congrArg₂ _ (string_data_eq ?_) rfl
  rw [data_append, hnl]
  simp

theorem pyReadlines_empty : pyReadlines "" = [] := rfl

theorem pyReadlines_concatLines (ls : List String) (r : String)
    (h : ∀ x ∈ ls, ∀ c ∈ x.data, c ≠ '\n') :
    pyReadlines (concatLines ls ++ r) = ls.map (· ++ "\n") ++ pyReadlines r := by
  induction ls with
  | nil => rw [concatLines, empty_append, List.map_nil, List.nil_append]
  | cons x xs ih =>
    rw [concatLines, strAppend_assoc, strAppend_assoc, ← strAppend_assoc x,
      pyReadlines_cons x _ (h x (List.mem_cons_self x xs)),
      ih fun y hy => h y (List.mem_cons_of_mem x hy)]
    rfl

theorem pyReadlines_concatLines_closed (ls : List String)
    (h : ∀ x ∈ ls, ∀ c ∈ x.data, c ≠ '\n') :
    pyReadlines (concatLines ls) = ls.map (· ++ "\n") := by
  have := pyReadlines_concatLines ls "" h
  rw [append_empty, pyReadlines_empty, List.append_nil] at this
  exact this

/-- The dump written over the first include line, expressed as a flat list of
lines: each non-empty group is followed by one empty separator line. -/
theorem dump_eq_concat (lib src : List String) :
    dumpIncludes lib src
      = concatLines (lib ++ (if lib.isEmpty then [] else [""])
          ++ (src ++ (if src.isEmpty then [] else [""]))) := by
  unfold dumpIncludes
  by_cases hl : lib.isEmpty <;> by_cases hs : src.isEmpty <;>
    simp [hl, hs, concatLines_append, concatLines, append_empty, empty_append,
      strAppend_assoc]

theorem pyDedupAux_congr_of_disjoint {seen l : List String}
    (h : ∀ x ∈ l, x ∉ seen) : pyDedupAux seen l = pyDedup l :=
  pyDedupAux_congr fun x hx => by simp [h x hx]

theorem pyDedup_append_disjoint {xs ys : List String}
    (h : ∀ y ∈ ys, y ∉ xs) : pyDedup (xs ++ ys) = pyDedup xs ++ pyDedup ys := by
  unfold pyDedup
  rw [pyDedupAux_append]
  refine congrArg _ ?_
  rw [List.append_nil]
  exact pyDedupAux_congr_of_disjoint h

theorem pyDedup_nil_iff {l : List String} : pyDedup l = [] ↔ l = [] := by
  constructor
  · intro h
    cases l with
    | nil => rfl
    | cons a as =>
      have : a ∈ pyDedup (a :: as) := mem_pyDedup.mpr (List.mem_cons_self a as)
      rw [h] at this
      cases this
  · rintro rfl; rfl

theorem pyDedupAux_irrel {a : String} {seen l : List String}
    (h : ∀ y ∈ l, y ≠ a) : pyDedupAux (a :: seen) l = pyDedupAux seen l :=
  pyDedupAux_congr fun x hx => by simp [List.mem_cons, h x hx]

theorem filter_pyDedupAux (p : String → Bool) (seen l : List String) :
    (pyDedupAux seen l).filter p = pyDedupAux seen (l.filter p) := by
  induction l generalizing seen with
  | nil => rfl
  | cons x xs ih =>
    by_cases hpx : p x = true
    · by_cases hx : x ∈ seen
      · rw [pyDedupAux, if_pos hx, List.filter_cons, if_pos hpx, pyDedupAux,
          if_pos hx]
        exact ih seen
      · rw [pyDedupAux, if_neg hx, List.filter_cons, if_pos hpx,
          List.filter_cons, if_pos hpx, pyDedupAux, if_neg hx]
        exact congrArg _ (ih (x :: seen))
    · rw [Bool.not_eq_true] at hpx
      by_cases hx : x ∈ seen
      · rw [pyDedupAux, if_pos hx, List.filter_cons, hpx]
        simp only [Bool.false_eq_true, if_false]
        exact ih seen
      · rw [pyDedupAux, if_neg hx, List.filter_cons, hpx]
        simp only [Bool.false_eq_true, if_false, List.filter_cons, hpx]
        rw [ih (x :: seen)]
        exact pyDedupAux_irrel fun y hy => by
          rintro rfl
          rw [(List.mem_filter.mp hy).2] at hpx
          cases hpx

theorem filter_pyDedup (p : String → Bool) (l : List String) :
    (pyDedup l).filter p = pyDedup (l.filter p) :=
  filter_pyDedupAux p [] l

theorem pyDedup_cons_cons {a b : String} (t : List String) (hab : b ≠ a) :
    pyDedup (a :: b :: t) = a :: b :: pyDedupAux [b, a] t := by
  unfold pyDedup
  rw [pyDedupAux, if_neg (by simp), pyDedupAux,
    if_neg (by simp [List.mem_singleton, hab])]

theorem isPyWs_newline : isPyWs '\n' = true := rfl

theorem pyRstrip_append_newline (x : String) :
    pyRstrip (x ++ "\n") = pyRstrip x := by
  unfold pyRstrip
  refine congrArg _ ?_
  rw [data_append]
  show rstripL (x.data ++ ['\n']) = rstripL x.data
  unfold rstripL
  rw [List.reverse_append]
  rfl

theorem rstripL_no_ws_last {l : List Char} {c : Char} (hc : isPyWs c = false)
    (h : l.reverse.head? = some c) : rstripL l = l := by
  obtain ⟨rev, hrev⟩ : ∃ rev, l.reverse = c :: rev := by
    cases hpr : l.reverse with
    | nil => rw [hpr] at h; cases h
    | cons d ds =>
      rw [hpr] at h
      injection h with h'
      exact ⟨ds, by rw [h']⟩
  unfold rstripL
  rw [hrev, List.dropWhile_cons, hc]
  simp only [Bool.false_eq_true, if_false]
  rw [← hrev, List.reverse_reverse]

theorem normHeader_head_reverse (stem : String) :
    (normHeader stem).data.reverse.head? = some '"' := by
  rw [normHeader_data, List.reverse_append, List.reverse_append]
  rfl

theorem normHeader_rstrip (stem : String) :
    pyRstrip (normHeader stem) = normHeader stem := by
  unfold pyRstrip
  refine string_data_eq ?_
  show rstripL (normHeader stem).data = (normHeader stem).data
  exact rstripL_no_ws_last (by decide) (normHeader_head_reverse stem)

theorem normHeader_no_newline (stem : String) (hstem : ∀ c ∈ stem.data, c ≠ '\n') :
    ∀ c ∈ (normHeader stem).data, c ≠ '\n' := by
  intro c hc
  rw [normHeader_data] at hc
  simp only [List.mem_append] at hc
  rcases hc with (hc | hc) | hc
  · rintro rfl; revert hc; decide
  · exact hstem c hc
  · rintro rfl; revert hc; decide

/-- The single-character converse of `endsWith_gt_ne_quote`. -/
theorem endsWith_quote_ne_gt {x : String} (h : str_endsWith x "\"" = true) :
    str_endsWith x ">" = false := by
  unfold str_endsWith at h ⊢
  have hq : ("\"".data.reverse) = ['"'] := rfl
  have hgt : (">".data.reverse) = ['>'] := rfl
  rw [hq] at h
  rw [hgt]
  cases hr : x.data.reverse with
  | nil => rw [hr] at h; simp [listPrefixB] at h
  | cons c cs =>
    rw [hr] at h
    simp only [listPrefixB, Bool.and_eq_true, decide_eq_true_eq] at h
    simp only [listPrefixB, Bool.and_eq_false_iff, decide_eq_false_iff_not]
    left
    rw [← h.1]
    decide

theorem sorted_pyDedup {l : List String} (h : List.Sorted sLe l) :
    List.Sorted sLe (pyDedup l) := sorted_pyDedupAux h

theorem pyDedup_isEmpty (l : List String) : (pyDedup l).isEmpty = l.isEmpty := by
  cases l with
  | nil => rfl
  | cons a as =>
    cases hd : pyDedup (a :: as) with
    | nil => exact absurd (pyDedup_nil_iff.mp hd) (by simp)
    | cons b bs => rfl

theorem nodup_pyDedup (l : List String) : (pyDedup l).Nodup := nodup_pyDedupAux [] l

/-- The library group written as a single append with an optional separator. -/
theorem sort_lib_shape (l : List String) :
    sort_lib_includes l
      = (pySorted l).filter isStdlibB
        ++ (if (!((pySorted l).filter isStdlibB).isEmpty
              && !((pySorted l).filter (fun d => !isStdlibB d)).isEmpty) = true
            then [""] else [])
        ++ (pySorted l).filter (fun d => !isStdlibB d) := by
  unfold sort_lib_includes
  split
  · rfl
  · rw [List.append_nil]

/-- Deduplicating and re-sorting the library group built from an
already-deduplicated library group reproduces it: `sort_lib_includes`
composed with `dict.fromkeys` is a fixed point once the separator line is
filtered back out. -/
theorem lib_fixpoint (lib0 : List String)
    (hends : ∀ x ∈ lib0, str_endsWith x ">" = true) :
    pyDedup (sort_lib_includes
      ((pyDedup (sort_lib_includes lib0)).filter (fun x => str_endsWith x ">")))
      = pyDedup (sort_lib_includes lib0) := by
  have hnoS : ("" : String) ∉ pySorted lib0 := fun h => by
    have := hends "" (mem_pySorted.mp h)
    rw [empty_not_endsWith_gt] at this
    cases this
  have hnoA : ("" : String) ∉ (pySorted lib0).filter isStdlibB :=
    fun h => hnoS (List.mem_filter.mp h).1
  have hnoB : ("" : String) ∉ (pySorted lib0).filter (fun d => !isStdlibB d) :=
    fun h => hnoS (List.mem_filter.mp h).1
  have hdisj : ∀ y ∈ (pySorted lib0).filter (fun d => !isStdlibB d),
      y ∉ (pySorted lib0).filter isStdlibB := by
    intro y hy hy'
    have h1 := (List.mem_filter.mp hy).2
    have h2 := (List.mem_filter.mp hy').2
    rw [h2] at h1
    cases h1
  have hsepno : ∀ y ∈ (if (!((pySorted lib0).filter isStdlibB).isEmpty
        && !((pySorted lib0).filter (fun d => !isStdlibB d)).isEmpty) = true
      then [""] else ([] : List String)), y = "" := by
    intro y hy
    split at hy
    · rwa [List.mem_singleton] at hy
    · cases hy
  -- decomposition of the deduplicated first-run group
  have hLstruct : pyDedup (sort_lib_includes lib0)
      = pyDedup ((pySorted lib0).filter isStdlibB)
        ++ (if (!((pySorted lib0).filter isStdlibB).isEmpty
              && !((pySorted lib0).filter (fun d => !isStdlibB d)).isEmpty) = true
            then [""] else [])
        ++ pyDedup ((pySorted lib0).filter (fun d => !isStdlibB d)) := by
    rw [sort_lib_shape]
    rw [pyDedup_append_disjoint (by
      intro y hy
      rw [List.mem_append]
      push_neg
      refine ⟨hdisj y hy, fun hsep => ?_⟩
      have := hsepno y hsep
      subst this
      exact hnoB hy)]
    rw [pyDedup_append_disjoint (by
      intro y hy
      have := hsepno y hy
      subst this
      exact hnoA)]
    have hsep : pyDedup (if (!((pySorted lib0).filter isStdlibB).isEmpty
          && !((pySorted lib0).filter (fun d => !isStdlibB d)).isEmpty) = true
        then [""] else ([] : List String))
        = (if (!((pySorted lib0).filter isStdlibB).isEmpty
            && !((pySorted lib0).filter (fun d => !isStdlibB d)).isEmpty) = true
          then [""] else []) := by
      split <;> rfl
    rw [hsep]
  -- all real elements end in `>`, so filtering recovers the group minus the
  -- separator
  have hkeepA : (pyDedup ((pySorted lib0).filter isStdlibB)).filter
        (fun x => str_endsWith x ">")
      = pyDedup ((pySorted lib0).filter isStdlibB) := by
    rw [List.filter_eq_self]
    intro a ha
    exact hends a (mem_pySorted.mp (List.mem_filter.mp (mem_pyDedup.mp ha)).1)
  have hkeepB : (pyDedup ((pySorted lib0).filter (fun d => !isStdlibB d))).filter
        (fun x => str_endsWith x ">")
      = pyDedup ((pySorted lib0).filter (fun d => !isStdlibB d)) := by
    rw [List.filter_eq_self]
    intro a ha
    exact hends a (mem_pySorted.mp (List.mem_filter.mp (mem_pyDedup.mp ha)).1)
  have hdropSep : (if (!((pySorted lib0).filter isStdlibB).isEmpty
        && !((pySorted lib0).filter (fun d => !isStdlibB d)).isEmpty) = true
      then [""] else ([] : List String)).filter (fun x => str_endsWith x ">")
      = [] := by
    split <;> rfl
  have hLne : (pyDedup (sort_lib_includes lib0)).filter (fun x => str_endsWith x ">")
      = pyDedup ((pySorted lib0).filter isStdlibB)
        ++ pyDedup ((pySorted lib0).filter (fun d => !isStdlibB d)) := by
    rw [hLstruct, List.filter_append, List.filter_append, hkeepA, hkeepB,
      hdropSep, List.append_nil]
  -- re-sorting the deduplicated group gives the deduplicated sorted input
  have hcommA : pyDedup ((pySorted lib0).filter isStdlibB)
      = (pyDedup (pySorted lib0)).filter isStdlibB := (filter_pyDedup _ _).symm
  have hcommB : pyDedup ((pySorted lib0).filter (fun d => !isStdlibB d))
      = (pyDedup (pySorted lib0)).filter (fun d => !isStdlibB d) :=
    (filter_pyDedup _ _).symm
  have hDsorted : List.Sorted sLe (pyDedup (pySorted lib0)) :=
    sorted_pyDedupAux (sorted_pySorted lib0)
  have hresort : pySorted (pyDedup ((pySorted lib0).filter isStdlibB)
        ++ pyDedup ((pySorted lib0).filter (fun d => !isStdlibB d)))
      = pyDedup (pySorted lib0) := by
    refine List.eq_of_perm_of_sorted
      ((perm_pySorted _).trans ?_) (sorted_pySorted _) hDsorted
    rw [hcommA, hcommB]
    exact List.filter_append_perm _ _
  -- the second-run filters and separator condition coincide with the first's
  have hsl₂ : sort_lib_includes ((pyDedup (sort_lib_includes lib0)).filter
        (fun x => str_endsWith x ">"))
      = pyDedup ((pySorted lib0).filter isStdlibB)
        ++ (if (!((pySorted lib0).filter isStdlibB).isEmpty
              && !((pySorted lib0).filter (fun d => !isStdlibB d)).isEmpty) = true
            then [""] else [])
        ++ pyDedup ((pySorted lib0).filter (fun d => !isStdlibB d)) := by
    rw [hLne, sort_lib_shape, hresort, ← hcommA, ← hcommB, pyDedup_isEmpty,
      pyDedup_isEmpty]
  rw [hsl₂, hLstruct]
  -- deduplicating the already-deduplicated shape is the identity
  have hnoA' : ("" : String) ∉ pyDedup ((pySorted lib0).filter isStdlibB) :=
    fun h => hnoA (mem_pyDedup.mp h)
  have hnoB' : ("" : String) ∉ pyDedup ((pySorted lib0).filter (fun d => !isStdlibB d)) :=
    fun h => hnoB (mem_pyDedup.mp h)
  rw [pyDedup_append_disjoint (by
    intro y hy
    rw [List.mem_append]
    push_neg
    refine ⟨fun hy' => hdisj y (mem_pyDedup.mp hy) (mem_pyDedup.mp hy'), fun hsep => ?_⟩
    have := hsepno y hsep
    subst this
    exact hnoB' hy)]
  rw [pyDedup_append_disjoint (by
    intro y hy
    have := hsepno y hy
    subst this
    exact hnoA')]
  rw [pyDedup_eq_self (nodup_pyDedup _), pyDedup_eq_self (nodup_pyDedup _)]
  have hsepded : pyDedup (if (!((pySorted lib0).filter isStdlibB).isEmpty
        && !((pySorted lib0).filter (fun d => !isStdlibB d)).isEmpty) = true
      then [""] else ([] : List String))
      = (if (!((pySorted lib0).filter isStdlibB).isEmpty
          && !((pySorted lib0).filter (fun d => !isStdlibB d)).isEmpty) = true
        then [""] else []) := by
    split <;> rfl
  rw [hsepded]

theorem sort_src_eq_of_none {suffix stem : String} {l : List String}
    (hsuf : suffix = ".c") (h : pyFindMatch stem l = none) :
    sort_src_includes suffix stem l = pySorted l := by
  unfold sort_src_includes
  rw [if_pos hsuf, h]

theorem sort_src_eq_of_some {suffix stem d : String} {l : List String}
    (hsuf : suffix = ".c") (h : pyFindMatch stem l = some d) :
    sort_src_includes suffix stem l
      = if l.erase d = [] then [normHeader stem]
        else normHeader stem :: "" :: pySorted (l.erase d) := by
  unfold sort_src_includes
  rw [if_pos hsuf, h]
  dsimp only
  by_cases hr : l.erase d = []
  · rw [if_neg (by simp [hr]), if_pos hr]
  · rw [if_pos (by simpa using hr), if_neg hr]

/-- Deduplicating and re-sorting the local group built from an
already-deduplicated local group reproduces it, provided the corner in which
deduplication empties the remainder after the associated header (while the
pre-deduplication remainder was non-empty) does not occur. -/
theorem src_fixpoint (suffix stem : String) (src0 : List String)
    (hends : ∀ x ∈ src0, str_endsWith x "\"" = true)
    (hcorner : ∀ d, pyFindMatch stem src0 = some d →
        src0.erase d = [] ∨ ∃ y ∈ src0.erase d, y ≠ normHeader stem) :
    pyDedup (sort_src_includes suffix stem
      ((pyDedup (sort_src_includes suffix stem src0)).filter
        (fun x => str_endsWith x "\"")))
      = pyDedup (sort_src_includes suffix stem src0) := by
  by_cases hsuf : suffix = ".c"
  · cases hfind : pyFindMatch stem src0 with
    | none =>
      rw [sort_src_eq_of_none hsuf hfind]
      have hfil : (pyDedup (pySorted src0)).filter (fun x => str_endsWith x "\"")
          = pyDedup (pySorted src0) := by
        rw [List.filter_eq_self]
        intro a ha
        exact hends a (mem_pySorted.mp (mem_pyDedup.mp ha))
      rw [hfil]
      have hnone₂ : pyFindMatch stem (pyDedup (pySorted src0)) = none := by
        rw [pyFindMatch_none]
        intro x hx
        exact pyFindMatch_none.mp hfind x (mem_pySorted.mp (mem_pyDedup.mp hx))
      rw [sort_src_eq_of_none hsuf hnone₂,
        pySorted_eq_self (sorted_pyDedup (sorted_pySorted _)),
        pyDedup_eq_self (nodup_pyDedup _)]
    | some d =>
      rw [sort_src_eq_of_some hsuf hfind]
      by_cases hrest : src0.erase d = []
      · rw [if_pos hrest,
          show pyDedup [normHeader stem] = [normHeader stem] from
            pyDedup_eq_self (by simp)]
        have hfil : ([normHeader stem]).filter (fun x => str_endsWith x "\"")
            = [normHeader stem] := by
          rw [List.filter_eq_self]
          intro a ha
          rw [List.mem_singleton] at ha
          subst ha
          exact normHeader_endsWith_quote stem
        rw [hfil]
        have hfind₂ : pyFindMatch stem [normHeader stem]
            = some (normHeader stem) := by
          unfold pyFindMatch
          rw [if_pos (containsStr_normHeader stem)]
        rw [sort_src_eq_of_some hsuf hfind₂, List.erase_cons_head, if_pos rfl]
        exact pyDedup_eq_self (by simp)
      · rw [if_neg hrest]
        have hnn : ("" : String) ≠ normHeader stem :=
          fun h => (normHeader_ne_empty stem) h.symm
        rw [pyDedup_cons_cons _ hnn]
        have hRsub : ∀ x ∈ pyDedupAux ["", normHeader stem]
            (pySorted (src0.erase d)),
            x ∈ src0.erase d ∧ x ≠ "" ∧ x ≠ normHeader stem := by
          intro x hx
          rcases mem_pyDedupAux.mp hx with ⟨hx1, hx2⟩
          refine ⟨mem_pySorted.mp hx1, ?_, ?_⟩
          · rintro rfl
            exact hx2 (List.mem_cons_self _ _)
          · rintro rfl
            exact hx2 (List.mem_cons_of_mem _ (List.mem_cons_self _ _))
        have hfil : ((normHeader stem :: "" :: pyDedupAux ["", normHeader stem]
              (pySorted (src0.erase d))).filter (fun x => str_endsWith x "\""))
            = normHeader stem
              :: pyDedupAux ["", normHeader stem] (pySorted (src0.erase d)) := by
          simp only [List.filter_cons]
          rw [if_pos (normHeader_endsWith_quote stem),
            if_neg (by simp [empty_not_endsWith_quote])]
          refine congrArg _ ?_
          rw [List.filter_eq_self]
          intro a ha
          exact hends a ((List.erase_sublist _ _).subset (hRsub a ha).1)
        rw [hfil]
        have hfind₂ : pyFindMatch stem (normHeader stem
              :: pyDedupAux ["", normHeader stem] (pySorted (src0.erase d)))
            = some (normHeader stem) := by
          unfold pyFindMatch
          rw [if_pos (containsStr_normHeader stem)]
        rw [sort_src_eq_of_some hsuf hfind₂, List.erase_cons_head]
        have hRne : pyDedupAux ["", normHeader stem] (pySorted (src0.erase d))
            ≠ [] := by
          rcases hcorner d hfind with hc | ⟨y, hy, hyne⟩
          · exact absurd hc hrest
          · have hy' : y ∈ pySorted (src0.erase d) := mem_pySorted.mpr hy
            have hyq : y ≠ "" := by
              rintro rfl
              have := hends "" ((List.erase_sublist _ _).subset hy)
              rw [empty_not_endsWith_quote] at this
              cases this
            intro hR
            have : y ∈ pyDedupAux ["", normHeader stem]
                (pySorted (src0.erase d)) :=
              mem_pyDedupAux.mpr ⟨hy', by simp [hyq, hyne]⟩
            rw [hR] at this
            cases this
        rw [if_neg hRne,
          pySorted_eq_self (sorted_pyDedupAux (sorted_pySorted _)),
          pyDedup_cons_cons _ hnn]
        refine congrArg _ (congrArg _ ?_)
        exact pyDedupAux_eq_self (nodup_pyDedupAux _ _) fun x hx => by
          rcases hRsub x hx with ⟨_, h1, h2⟩
          simp [h1, h2]
  · have hshape : ∀ l, sort_src_includes suffix stem l = pySorted l := by
      intro l
      unfold sort_src_includes
      rw [if_neg hsuf]
    rw [hshape, hshape]
    have hfil : (pyDedup (pySorted src0)).filter (fun x => str_endsWith x "\"")
        = pyDedup (pySorted src0) := by
      rw [List.filter_eq_self]
      intro a ha
      exact hends a (mem_pySorted.mp (mem_pyDedup.mp ha))
    rw [hfil, pySorted_eq_self (sorted_pyDedup (sorted_pySorted _)),
      pyDedup_eq_self (nodup_pyDedup _)]

/-- Collecting the include lines of an emitted block: every line that is a
group entry followed by a newline is picked up rstripped, and the blank
separator lines are skipped without touching the `#if` state. -/
theorem collectAux_lines (xs : List String)
    (h : ∀ x ∈ xs, pyRstrip x = x
      ∧ (str_startsWith x "#include" = true ∨ x = "")) :
    collectAux false (xs.map (· ++ "\n"))
      = xs.filter (fun x => str_startsWith x "#include") := by
  induction xs with
  | nil => rfl
  | cons x xs ih =>
    have hx := h x (List.mem_cons_self x xs)
    have hrs : pyRstrip (x ++ "\n") = x := by rw [pyRstrip_append_newline, hx.1]
    have ih' := ih fun y hy => h y (List.mem_cons_of_mem x hy)
    rcases hx.2 with hs | hs
    · simp only [List.map_cons, collectAux, hrs, hs, Bool.not_false,
        Bool.and_true, if_true, List.filter_cons]
      exact congrArg _ ih'
    · subst hs
      have h1 : str_startsWith "" "#if" = false := rfl
      have h2 : str_startsWith "" "#endif" = false := rfl
      simp only [List.map_cons, collectAux, hrs, empty_not_startsWith_include,
        h1, h2, Bool.false_and, Bool.and_true, Bool.false_eq_true, if_false,
        List.filter_cons]
      exact ih'

theorem filter_filter_of_imp {p q : String → Bool} {l : List String}
    (h : ∀ x ∈ l, q x = true → p x = true) :
    (l.filter p).filter q = l.filter q := by
  induction l with
  | nil => rfl
  | cons x xs ih =>
    have ih' := ih fun y hy => h y (List.mem_cons_of_mem x hy)
    by_cases hq : q x = true
    · have hp := h x (List.mem_cons_self x xs) hq
      simp only [List.filter_cons, hp, hq, if_true]
      exact congrArg _ ih'
    · rw [Bool.not_eq_true] at hq
      by_cases hp : p x = true
      · simp only [List.filter_cons, hp, hq, if_true, Bool.false_eq_true,
          if_false]
        exact ih'
      · rw [Bool.not_eq_true] at hp
        simp only [List.filter_cons, hp, hq, Bool.false_eq_true, if_false]
        exact ih'

theorem libGroup_eq (il : List String) :
    libGroup il
      = pyDedup (sort_lib_includes (il.filter (fun x => str_endsWith x ">"))) :=
  rfl

theorem srcGroup_eq (suffix stem : String) (il : List String) :
    srcGroup suffix stem il
      = pyDedup (sort_src_includes suffix stem
          (il.filter (fun x => str_endsWith x "\""))) :=
  rfl

/-- C3 counterexample: `foo.c` containing `#include "foo.h"` twice. The first
run deduplicates the local group but keeps the now-trailing empty separator,
emitting the directive followed by two blank lines; the second run sees a
single local directive, emits it followed by one blank line, and so produces
different output: the transformation is not idempotent. -/
theorem C3_counterexample :
    sortIncludesFile ".c" "foo" "#include \"foo.h\"\n#include \"foo.h\"\n"
      = some "#include \"foo.h\"\n\n\n"
    ∧ sortIncludesFile ".c" "foo" "#include \"foo.h\"\n\n\n"
      = some "#include \"foo.h\"\n\n"
    ∧ ("#include \"foo.h\"\n\n\n" : String) ≠ "#include \"foo.h\"\n\n" := by
  decide

/-- C3 (amended): the sorting/deduplication core is a fixed point at the
include-block level: re-extracting the directives from the emitted block and
recomputing the two groups reproduces them exactly — provided the extracted
lines are genuine rstripped single-line `#include` directives and the
duplicate-associated-header corner does not occur (for a `.c` file whose
matched local remainder is non-empty, some remaining quoted directive must
differ from the normalized header; otherwise deduplication strands a trailing
separator that a second run drops, as the counterexample shows). -/
theorem C3_idempotent_amended (suffix stem : String) (include_lines : List String)
    (hstart : ∀ x ∈ include_lines, str_startsWith x "#include" = true)
    (hr : ∀ x ∈ include_lines, pyRstrip x = x)
    (hnl : ∀ x ∈ include_lines, ∀ c ∈ x.data, c ≠ '\n')
    (hstem : ∀ c ∈ stem.data, c ≠ '\n')
    (hcorner : ∀ d, pyFindMatch stem
        (include_lines.filter (fun y => str_endsWith y "\"")) = some d →
        (include_lines.filter (fun y => str_endsWith y "\"")).erase d = []
        ∨ ∃ y ∈ (include_lines.filter (fun y => str_endsWith y "\"")).erase d,
            y ≠ normHeader stem) :
    libGroup (collect_include_lines (pyReadlines
        (dumpIncludes (libGroup include_lines)
          (srcGroup suffix stem include_lines))))
      = libGroup include_lines
    ∧ srcGroup suffix stem (collect_include_lines (pyReadlines
        (dumpIncludes (libGroup include_lines)
          (srcGroup suffix stem include_lines))))
      = srcGroup suffix stem include_lines := by
  have hLp : ∀ x ∈ libGroup include_lines,
      pyRstrip x = x ∧ (str_startsWith x "#include" = true ∨ x = "")
        ∧ (∀ c ∈ x.data, c ≠ '\n') ∧ (x ≠ "" → str_endsWith x ">" = true) := by
    intro x hx
    rcases mem_sort_lib_cases (mem_pyDedup.mp hx) with hx' | rfl
    · have hm := List.mem_filter.mp hx'
      exact ⟨hr x hm.1, Or.inl (hstart x hm.1), hnl x hm.1, fun _ => hm.2⟩
    · exact ⟨rfl, Or.inr rfl, fun c hc => absurd hc (List.not_mem_nil c),
        fun hc => absurd rfl hc⟩
  have hSp : ∀ x ∈ srcGroup suffix stem include_lines,
      pyRstrip x = x ∧ (str_startsWith x "#include" = true ∨ x = "")
        ∧ (∀ c ∈ x.data, c ≠ '\n') ∧ (x ≠ "" → str_endsWith x "\"" = true) := by
    intro x hx
    rcases mem_sort_src_cases (mem_pyDedup.mp hx) with hx' | rfl | rfl
    · have hm := List.mem_filter.mp hx'
      exact ⟨hr x hm.1, Or.inl (hstart x hm.1), hnl x hm.1, fun _ => hm.2⟩
    · exact ⟨rfl, Or.inr rfl, fun c hc => absurd hc (List.not_mem_nil c),
        fun hc => absurd rfl hc⟩
    · exact ⟨normHeader_rstrip stem, Or.inl (normHeader_startsWith stem),
        normHeader_no_newline stem hstem,
        fun _ => normHeader_endsWith_quote stem⟩
  have hbig : ∀ x ∈ libGroup include_lines
        ++ (if (libGroup include_lines).isEmpty then [] else [""])
        ++ (srcGroup suffix stem include_lines
          ++ (if (srcGroup suffix stem include_lines).isEmpty then [] else [""])),
      x ∈ libGroup include_lines ∨ x ∈ srcGroup suffix stem include_lines
        ∨ x = "" := by
    intro x hx
    simp only [List.mem_append] at hx
    rcases hx with (hx | hx) | hx | hx
    · exact Or.inl hx
    · split at hx
      · cases hx
      · rw [List.mem_singleton] at hx
        exact Or.inr (Or.inr hx)
    · exact Or.inr (Or.inl hx)
    · split at hx
      · cases hx
      · rw [List.mem_singleton] at hx
        exact Or.inr (Or.inr hx)
  have hbigp : ∀ x ∈ libGroup include_lines
        ++ (if (libGroup include_lines).isEmpty then [] else [""])
        ++ (srcGroup suffix stem include_lines
          ++ (if (srcGroup suffix stem include_lines).isEmpty then [] else [""])),
      pyRstrip x = x ∧ (str_startsWith x "#include" = true ∨ x = "") := by
    intro x hx
    rcases hbig x hx with hx' | hx' | rfl
    · exact ⟨(hLp x hx').1, (hLp x hx').2.1⟩
    · exact ⟨(hSp x hx').1, (hSp x hx').2.1⟩
    · exact ⟨rfl, Or.inr rfl⟩
  have hbignl : ∀ x ∈ libGroup include_lines
        ++ (if (libGroup include_lines).isEmpty then [] else [""])
        ++ (srcGroup suffix stem include_lines
          ++ (if (srcGroup suffix stem include_lines).isEmpty then [] else [""])),
      ∀ c ∈ x.data, c ≠ '\n' := by
    intro x hx
    rcases hbig x hx with hx' | hx' | rfl
    · exact (hLp x hx').2.2.1
    · exact (hSp x hx').2.2.1
    · exact fun c hc => absurd hc (List.not_mem_nil c)
  have hex2 : collect_include_lines (pyReadlines
        (dumpIncludes (libGroup include_lines)
          (srcGroup suffix stem include_lines)))
      = (libGroup include_lines
        ++ (if (libGroup include_lines).isEmpty then [] else [""])
        ++ (srcGroup suffix stem include_lines
          ++ (if (srcGroup suffix stem include_lines).isEmpty then [] else [""]))).filter
          (fun x => str_startsWith x "#include") := by
    rw [dump_eq_concat, pyReadlines_concatLines_closed _ hbignl]
    exact collectAux_lines _ hbigp
  have hgtf : ((libGroup include_lines
        ++ (if (libGroup include_lines).isEmpty then [] else [""])
        ++ (srcGroup suffix stem include_lines
          ++ (if (srcGroup suffix stem include_lines).isEmpty then [] else [""]))).filter
          (fun x => str_startsWith x "#include")).filter
        (fun x => str_endsWith x ">")
      = (libGroup include_lines
        ++ (if (libGroup include_lines).isEmpty then [] else [""])
        ++ (srcGroup suffix stem include_lines
          ++ (if (srcGroup suffix stem include_lines).isEmpty then [] else [""]))).filter
          (fun x => str_endsWith x ">") := by
    refine filter_filter_of_imp ?_
    intro x hx hgt
    rcases (hbigp x hx).2 with h | rfl
    · exact h
    · rw [empty_not_endsWith_gt] at hgt
      cases hgt
  have hqf : ((libGroup include_lines
        ++ (if (libGroup include_lines).isEmpty then [] else [""])
        ++ (srcGroup suffix stem include_lines
          ++ (if (srcGroup suffix stem include_lines).isEmpty then [] else [""]))).filter
          (fun x => str_startsWith x "#include")).filter
        (fun x => str_endsWith x "\"")
      = (libGroup include_lines
        ++ (if (libGroup include_lines).isEmpty then [] else [""])
        ++ (srcGroup suffix stem include_lines
          ++ (if (srcGroup suffix stem include_lines).isEmpty then [] else [""]))).filter
          (fun x => str_endsWith x "\"") := by
    refine filter_filter_of_imp ?_
    intro x hx hq
    rcases (hbigp x hx).2 with h | rfl
    · exact h
    · rw [empty_not_endsWith_quote] at hq
      cases hq
  have hsepgt : ∀ b : Bool, ((if b = true then [] else [""]) : List String).filter
      (fun x => str_endsWith x ">") = [] := by
    intro b
    split <;> rfl
  have hsepq : ∀ b : Bool, ((if b = true then [] else [""]) : List String).filter
      (fun x => str_endsWith x "\"") = [] := by
    intro b
    split <;> rfl
  have hbig_gt : (libGroup include_lines
        ++ (if (libGroup include_lines).isEmpty then [] else [""])
        ++ (srcGroup suffix stem include_lines
          ++ (if (srcGroup suffix stem include_lines).isEmpty then [] else [""]))).filter
          (fun x => str_endsWith x ">")
      = (libGroup include_lines).filter (fun x => str_endsWith x ">") := by
    rw [List.filter_append, List.filter_append, List.filter_append]
    have h1 : ((if (libGroup include_lines).isEmpty then ([] : List String)
        else [""])).filter (fun x => str_endsWith x ">") = [] := by
      split <;> rfl
    have h2 : ((if (srcGroup suffix stem include_lines).isEmpty
        then ([] : List String) else [""])).filter
        (fun x => str_endsWith x ">") = [] := by
      split <;> rfl
    have h3 : (srcGroup suffix stem include_lines).filter
        (fun x => str_endsWith x ">") = [] := by
      rw [List.filter_eq_nil_iff]
      intro a ha hgt
      rcases mem_sort_src_cases (mem_pyDedup.mp ha) with ha' | rfl | rfl
      · have := endsWith_quote_ne_gt (List.mem_filter.mp ha').2
        rw [this] at hgt
        cases hgt
      · rw [empty_not_endsWith_gt] at hgt
        cases hgt
      · have := endsWith_quote_ne_gt (normHeader_endsWith_quote stem)
        rw [this] at hgt
        cases hgt
    rw [h1, h2, h3]
    simp
  have hbig_q : (libGroup include_lines
        ++ (if (libGroup include_lines).isEmpty then [] else [""])
        ++ (srcGroup suffix stem include_lines
          ++ (if (srcGroup suffix stem include_lines).isEmpty then [] else [""]))).filter
          (fun x => str_endsWith x "\"")
      = (srcGroup suffix stem include_lines).filter
          (fun x => str_endsWith x "\"") := by
    rw [List.filter_append, List.filter_append, List.filter_append]
    have h1 : ((if (libGroup include_lines).isEmpty then ([] : List String)
        else [""])).filter (fun x => str_endsWith x "\"") = [] := by
      split <;> rfl
    have h2 : ((if (srcGroup suffix stem include_lines).isEmpty
        then ([] : List String) else [""])).filter
        (fun x => str_endsWith x "\"") = [] := by
      split <;> rfl
    have h3 : (libGroup include_lines).filter
        (fun x => str_endsWith x "\"") = [] := by
      rw [List.filter_eq_nil_iff]
      intro a ha hq
      rcases mem_sort_lib_cases (mem_pyDedup.mp ha) with ha' | rfl
      · have := endsWith_gt_ne_quote (List.mem_filter.mp ha').2
        rw [this] at hq
        cases hq
      · rw [empty_not_endsWith_quote] at hq
        cases hq
    rw [h1, h2, h3]
    simp
  constructor
  · rw [libGroup_eq (collect_include_lines (pyReadlines
        (dumpIncludes (libGroup include_lines)
          (srcGroup suffix stem include_lines)))),
      hex2, hgtf, hbig_gt]
    exact lib_fixpoint _ fun x hx => (List.mem_filter.mp hx).2
  · rw [srcGroup_eq suffix stem (collect_include_lines (pyReadlines
        (dumpIncludes (libGroup include_lines)
          (srcGroup suffix stem include_lines)))),
      hex2, hqf, hbig_q]
    exact src_fixpoint suffix stem _ (fun x hx => (List.mem_filter.mp hx).2)
      hcorner

/-- C3 witness: a `.c` file with one library directive and one quoted
directive not matching the stem; re-extracting from the emitted block
reproduces both groups. -/
theorem C3_witness :
    libGroup (collect_include_lines (pyReadlines
        (dumpIncludes (libGroup ["#include <b.h>", "#include \"b.h\""])
          (srcGroup ".c" "zzz" ["#include <b.h>", "#include \"b.h\""]))))
      = libGroup ["#include <b.h>", "#include \"b.h\""]
    ∧ srcGroup ".c" "zzz" (collect_include_lines (pyReadlines
        (dumpIncludes (libGroup ["#include <b.h>", "#include \"b.h\""])
          (srcGroup ".c" "zzz" ["#include <b.h>", "#include \"b.h\""]))))
      = srcGroup ".c" "zzz" ["#include <b.h>", "#include \"b.h\""] :=
  C3_idempotent_amended ".c" "zzz" ["#include <b.h>", "#include \"b.h\""]
    (by decide) (by decide) (by decide) (by decide)
    (fun d hd => by
      rw [show pyFindMatch "zzz"
          ((["#include <b.h>", "#include \"b.h\""] : List String).filter
            (fun y => str_endsWith y "\"")) = none from by decide] at hd
      exact Option.noConfusion hd)

/-- C2 counterexample: the file `#include <a.h>` / `#include bad` has two
distinct include directive texts outside conditional blocks, but after the
transformation the malformed text `#include bad` (ending in neither `>` nor
`"`) occurs nowhere in the output: a directive text was lost, contradicting
the as-stated set preservation. -/
theorem C2_counterexample :
    sortIncludesFile ".h" "x" "#include <a.h>\n#include bad\n"
      = some "#include <a.h>\n\n"
    ∧ "#include bad"
        ∈ collect_include_lines (pyReadlines "#include <a.h>\n#include bad\n")
    ∧ "#include bad" ∉ collect_include_lines (pyReadlines "#include <a.h>\n\n") := by
  decide

/-- C2 (amended): provided every extracted directive is well-formed (ends in
`>` or `"`) and, for a `.c` file, the first stem-matching quoted directive
(when one exists) is already spelled in normalized form, the set of distinct
directive texts making up the rewritten groups (separator lines aside) equals
the set of distinct extracted directive texts: nothing is lost and nothing
new is introduced. -/
theorem C2_set_preservation_amended (suffix stem : String)
    (include_lines : List String)
    (hwf : ∀ x ∈ include_lines,
      str_endsWith x ">" = true ∨ str_endsWith x "\"" = true)
    (hnorm : suffix = ".c" → ∀ d,
      pyFindMatch stem (include_lines.filter (fun y => str_endsWith y "\""))
        = some d → d = normHeader stem)
    (x : String) (hx : x ≠ "") :
    x ∈ libGroup include_lines ++ srcGroup suffix stem include_lines
      ↔ x ∈ include_lines := by
  rw [List.mem_append]
  unfold libGroup srcGroup
  rw [mem_pyDedup, mem_pyDedup, mem_sort_lib_iff hx, mem_sort_src_iff hx hnorm]
  simp only [List.mem_filter]
  constructor
  · rintro (⟨h, _⟩ | ⟨h, _⟩) <;> exact h
  · intro h
    rcases hwf x h with hw | hw
    · exact Or.inl ⟨h, hw⟩
    · exact Or.inr ⟨h, hw⟩

/-- C2 witness: a two-directive file (one angle, one quoted) preserves the
angle directive's text through the groups. -/
theorem C2_witness :
    "#include <a.h>"
        ∈ libGroup ["#include <a.h>", "#include \"b.h\""]
          ++ srcGroup ".h" "x" ["#include <a.h>", "#include \"b.h\""]
      ↔ "#include <a.h>" ∈ ["#include <a.h>", "#include \"b.h\""] :=
  C2_set_preservation_amended ".h" "x" ["#include <a.h>", "#include \"b.h\""]
    (by decide) (fun h => absurd h (by decide)) "#include <a.h>" (by decide)

/-- C6 counterexample: a file with one library include and no local includes
is rewritten to `#include <b.h>` followed by a blank line — its last line is
blank — contradicting the claim that a file with no local includes emits only
the library group with no trailing blank line (the code emits a blank line
after each non-empty group, not only between two non-empty groups). -/
theorem C6_counterexample :
    sortIncludesFile ".h" "x" "#include <b.h>" = some "#include <b.h>\n\n"
    ∧ pyReadlines "#include <b.h>\n\n" = ["#include <b.h>\n", "\n"] := by
  decide

/-- C6 (amended): the emitted region is the library group followed by one
blank line when the library group is non-empty, then the local group followed
by one blank line when the local group is non-empty. Hence a single blank
line stands between the groups exactly when both are non-empty and there is
no leading blank when the library group is empty, but a non-empty trailing
group is also followed by a blank line. -/
theorem C6_separator_amended (lib src : List String)
    (hlib : ∀ x ∈ lib, ∀ c ∈ x.data, c ≠ '\n')
    (hsrc : ∀ x ∈ src, ∀ c ∈ x.data, c ≠ '\n') :
    pyReadlines (dumpIncludes lib src)
      = lib.map (· ++ "\n") ++ (if lib.isEmpty then [] else ["\n"])
        ++ src.map (· ++ "\n") ++ (if src.isEmpty then [] else ["\n"]) := by
  rw [dump_eq_concat, pyReadlines_concatLines_closed]
  · simp only [List.map_append]
    by_cases hl : lib.isEmpty <;> by_cases hs : src.isEmpty <;>
      simp [hl, hs, empty_append, List.append_assoc]
  · intro x hx
    simp only [List.mem_append, or_assoc] at hx
    have hempty : ∀ c ∈ ("" : String).data, c ≠ '\n' := by intro c hc; cases hc
    rcases hx with hx | hx | hx | hx
    · exact hlib x hx
    · split at hx
      · cases hx
      · rw [List.mem_singleton] at hx; subst hx; exact hempty
    · exact hsrc x hx
    · split at hx
      · cases hx
      · rw [List.mem_singleton] at hx; subst hx; exact hempty

/-- C6 witness: the emitted region for one library directive and no local
directives is the directive's line followed by one blank line. -/
theorem C6_witness :
    pyReadlines (dumpIncludes ["#include <b.h>"] []) = ["#include <b.h>\n", "\n"] :=
  (C6_separator_amended ["#include <b.h>"] [] (by decide) (by decide)).trans
    (by decide)

/-- C9 counterexample: the line `  #include <a.h>` — whose first non-indent
characters are exactly the include token — is recognized by neither pass: the
extraction pass collects nothing from it, and the rewriting loop does not
clear its first-include flag (it passes the line through verbatim),
contradicting the claim that indented include lines are recognized. -/
theorem C9_counterexample :
    collect_include_lines ["  #include <a.h>"] = []
    ∧ (rwLine [] [] initRwState "  #include <a.h>").first_include_line = true := by
  decide

/-- C9 (amended): a line is recognized as an include directive by the
extraction pass and by the rewriting pass exactly when the line itself starts
with the literal 8-character token `#include` at position 0 — leading
whitespace defeats recognition, since both passes test the raw line with
`startswith`; the extraction result is the rstripped line. -/
theorem C9_recognition_amended (lib src : List String) (l : String) :
    collect_include_lines [l]
      = (if str_startsWith l "#include" = true then [pyRstrip l] else [])
    ∧ (rwLine lib src initRwState l).first_include_line
      = !str_startsWith l "#include" := by
  constructor
  · unfold collect_include_lines collectAux
    by_cases h : str_startsWith l "#include" = true
    · have h' : str_startsWith (pyRstrip l) "#include" = true := by
        rw [str_startsWith_pyRstrip]; exact h
      simp [h, h', collectAux]
    · have h' : str_startsWith (pyRstrip l) "#include" = false := by
        rw [str_startsWith_pyRstrip]; simpa using h
      simp [h, h', collectAux]
  · unfold rwLine initRwState
    by_cases h : str_startsWith l "#include" = true
    · simp [h]
    · simp only [Bool.not_eq_true] at h
      simp [h]

theorem finalizeBuf_endsWith {s out : String} (h : finalizeBuf s = some out) :
    str_endsWith out "\n" = true := by
  unfold finalizeBuf at h
  split at h
  · cases h
  · split at h
    · next hlast =>
      injection h with h'
      subst h'
      unfold str_endsWith
      have hh : s.data.reverse.head? = some '\n' := by
        rw [List.head?_reverse]; exact hlast
      cases hr : s.data.reverse with
      | nil => rw [hr] at hh; cases hh
      | cons c cs =>
        rw [hr] at hh
        injection hh with hc
        simp [listPrefixB, hc]
    · injection h with h'
      subst h'
      unfold str_endsWith
      rw [data_append]
      have hnl : ("\n").data = ['\n'] := rfl
      rw [hnl, List.reverse_append]
      simp [listPrefixB]

/-- C8 counterexample: an input whose body ends in two blank lines (three
terminators in a row) is rewritten to an output that still ends in three
terminators — the fixup only appends a missing final terminator, it never
collapses existing ones — contradicting the claim that the output ends with
exactly one line terminator. -/
theorem C8_counterexample :
    sortIncludesFile ".h" "t" "#include <a.h>\nint x;\n\n\n"
      = some "#include <a.h>\n\nint x;\n\n\n"
    ∧ str_endsWith "#include <a.h>\n\nint x;\n\n\n" "\n\n" = true := by
  decide

/-- C8 (amended): for every processed file (one with at least one extracted
directive), the rewritten output ends with at least one line terminator: the
fixup appends exactly one terminator when the buffer lacks one (so an input
with zero trailing terminators gains exactly one), but multiple trailing
terminators already present in the buffer are preserved. -/
theorem C8_trailing_newline_amended (suffix stem content out : String)
    (hne : collect_include_lines (pyReadlines content) ≠ [])
    (hout : sortIncludesFile suffix stem content = some out) :
    str_endsWith out "\n" = true := by
  unfold sortIncludesFile at hout
  rw [if_neg (by simpa using hne)] at hout
  exact finalizeBuf_endsWith hout

/-- C8 witness: the terminator-less input `#include <a.h>` is rewritten to an
output ending in a terminator. -/
theorem C8_witness : str_endsWith "#include <a.h>\n\n" "\n" = true :=
  C8_trailing_newline_amended ".h" "t" "#include <a.h>" "#include <a.h>\n\n"
    (by decide) (by decide)

/-- C1 (code bug): when a conditional block precedes the first non-conditional
`#include` line, the rewriting loop — whose `#if` tracking only starts after
the first include line has been seen — dumps the sorted block over the first
`#include` line even though it lies inside the `#if`/`#endif` block. The line
strictly between `#if A` and `#endif` changes from
`#include "debug_only.h"` to `#include <stdio.h>` (and a blank line is
inserted), contradicting the claim (and the code's own comment at line 134
that in-block directives are untouched). -/
theorem C1_conditional_block_clobbered :
    sortIncludesFile ".c" "x"
        "#if A\n#include \"debug_only.h\"\n#endif\n#include <stdio.h>\n"
      = some "#if A\n#include <stdio.h>\n\n#endif\n"
    ∧ (pyReadlines "#if A\n#include \"debug_only.h\"\n#endif\n#include <stdio.h>\n")[1]?
        = some "#include \"debug_only.h\"\n"
    ∧ (pyReadlines "#if A\n#include <stdio.h>\n\n#endif\n")[1]?
        = some "#include <stdio.h>\n" := by
  decide

theorem sort_src_suffix_irrel {s : String} (hs : s ≠ ".c") (stem : String)
    (l : List String) :
    sort_src_includes s stem l = sort_src_includes ".h" stem l := by
  unfold sort_src_includes
  rw [if_neg hs, if_neg (by decide)]

theorem sortIncludesFile_suffix_irrel {s : String} (hs : s ≠ ".c")
    (stem content : String) :
    sortIncludesFile s stem content = sortIncludesFile ".h" stem content := by
  unfold sortIncludesFile sort_include_lines srcGroup
  rw [sort_src_suffix_irrel hs]

/-- C10 (confirmed): the traversal selects every regular file of the tree
that is not excluded, irrespective of extension: name-based exclusion only
applies to `.c`/`.h` files, so a file with any other suffix is never
excluded, is collected by the traversal, and is then processed exactly as a
header file would be (the suffix only matters for the `.c` associated-header
step). -/
theorem C10_traversal (es : List FSEntry) (n s stem content : String)
    (hs1 : s ≠ ".c") (hs2 : s ≠ ".h") (hmem : FSEntry.file n s ∈ es) :
    file_excluded s n = false
    ∧ (n, s) ∈ collect_source_files es
    ∧ sortIncludesFile s stem content = sortIncludesFile ".h" stem content := by
  have hexcl : file_excluded s n = false := by
    unfold file_excluded
    rw [if_neg]
    simp [hs1, hs2]
  refine ⟨hexcl, ?_, sortIncludesFile_suffix_irrel hs1 stem content⟩
  induction es with
  | nil => cases hmem
  | cons e rest ih =>
    rw [collect_source_files, List.mem_append]
    rcases List.mem_cons.mp hmem with heq | hmem'
    · left
      rw [← heq, collectEntry, hexcl]
      simp
    · exact Or.inr (ih hmem')

/-- C10 witness: a `.txt` file is not excluded, is collected from a
single-entry tree, and is processed like a header file. -/
theorem C10_witness :
    file_excluded ".txt" "notes.txt" = false
    ∧ ("notes.txt", ".txt") ∈ collect_source_files [FSEntry.file "notes.txt" ".txt"]
    ∧ sortIncludesFile ".txt" "notes" "#include <a.h>\n"
        = sortIncludesFile ".h" "notes" "#include <a.h>\n" :=
  C10_traversal [FSEntry.file "notes.txt" ".txt"] "notes.txt" ".txt" "notes"
    "#include <a.h>\n" (by decide) (by decide) (List.mem_cons_self _ _)

end SortIncludes
